import Mathlib

/-!
Verification development for the tscripter library (src/lib/statements.ts,
which contains both the node model `statements` and the `analyzer` module).

The TypeScript classes are embedded shallowly: the mutable object tree
becomes an inductive `CNode`; in-place mutation becomes functional update;
thrown `Error`s become `Except String`.  The external typescript compiler
API (`ts.Node`, `ts.SourceFile`) is modelled by `PNode`/`PFile`, recording
exactly the accessors the analyzer uses: `getFullText` (leading trivia ++
text), `getText`, `getLastToken`, `endOfFileToken`, and object identity
(modelled by a numeric id, distinct nodes having distinct ids).
-/

namespace Tscripter

/-- Model of a `ts.Node` as consumed by the analyzer: `leading` is the
leading trivia (`getFullText` minus `getText`), `text` is `getText()`,
`kind` the syntax kind tag, `lastTok` models `getLastToken()` as the pair
of that token's object id and its leading trivia (or `none` when
`getLastToken()` returns null). -/
structure PNode where
  id : Nat
  leading : String
  text : String
  kind : Nat
  lastTok : Option (Nat × String)
  deriving Repr, DecidableEq

/-- `getFullText()` of a parse node: leading trivia followed by the text. -/
def PNode.fullText (n : PNode) : String := n.leading ++ n.text

/-- Model of a `ts.SourceFile`: its statement list and its end-of-file
token (whose leading trivia is the file's trailing trivia and whose own
text is empty). -/
structure PFile where
  id : Nat
  fileName : String
  statements : List PNode
  eof : PNode
  deriving Repr, DecidableEq

/-- `sourceFile.getFullText()`: the concatenation of every statement's
full text followed by the end-of-file token's full text. -/
def PFile.fullText (f : PFile) : String :=
  String.join (f.statements.map PNode.fullText) ++ f.eof.fullText

/-- The `node` back-reference stored on a CodeNode: either an ordinary
`ts.Node` or (for `Source`) a `ts.SourceFile`. -/
inductive POrigin where
  | node (n : PNode)
  | file (f : PFile)
  deriving Repr, DecidableEq

/-- `VariableDeclarationType` enum from statements.ts. -/
inductive VariableDeclarationType where
  | LET
  | VAR
  | CONST
  deriving Repr, DecidableEq

/-- `VARIABLE_DECLARATION_STRING` lookup table. -/
def variableDeclarationString : VariableDeclarationType → String
  | .LET => "let"
  | .VAR => "var"
  | .CONST => "const"

/-- The constructor class of a node, together with the constructor fields
that are not shared with `CodeNode`.  `codeNode` is the base `CodeNode`
class itself (the lenient-mode fallback); `trivia` is `Trivia` with its
`SimpleNode` token; the block kinds are `AbstractBlock` itself,
`CodeBlock`, `Source` (with its `fileName`), a direct
`AbstractExpressionBlock`, and `VariableDeclaration` (with its modifier
list and declaration type). -/
inductive CK where
  | codeNode
  | trivia (token : String)
  | abstractBlock
  | codeBlock
  | source (fileName : String)
  | abstractExpressionBlock
  | variableDeclaration (modifiers : List String) (vtype : VariableDeclarationType)
  deriving Repr, DecidableEq

/-- Shallow embedding of a CodeNode object: its constructor class, the
`bodyHasBeenAnalyzed` flag and `elements` list (meaningful for the block
classes, absent-but-empty otherwise), the `node` back-reference, and the
cached `text` (`none` models null/unset). -/
inductive CNode where
  | mk (k : CK) (bodyHasBeenAnalyzed : Bool) (elements : List CNode)
      (node : Option POrigin) (text : Option String)
  deriving Repr

/-- Constructor class of a node. -/
def CNode.kind : CNode → CK
  | .mk k _ _ _ _ => k

/-- The `bodyHasBeenAnalyzed` flag. -/
def CNode.bodyHasBeenAnalyzed : CNode → Bool
  | .mk _ a _ _ _ => a

/-- The `elements` list of a block. -/
def CNode.elements : CNode → List CNode
  | .mk _ _ es _ _ => es

/-- The `node` back-reference (origin link). -/
def CNode.node : CNode → Option POrigin
  | .mk _ _ _ o _ => o

/-- The cached `text` rendering (`none` = null). -/
def CNode.text : CNode → Option String
  | .mk _ _ _ _ t => t

/-- `setText`: sets the cached rendering, returning the node. -/
def CNode.setText (t : String) : CNode → CNode
  | .mk k a es o _ => .mk k a es o (some t)

/-- Internal: replace the cached text with an optional value (used to
model both `setText` and the null assignment in `markDirty`). -/
def CNode.withText (t : Option String) : CNode → CNode
  | .mk k a es o _ => .mk k a es o t

/-- `registerWithNode`: sets the `node` back-reference, returning the node. -/
def CNode.registerWithNode (o : POrigin) : CNode → CNode
  | .mk k a es _ t => .mk k a es (some o) t

/-- Set the `bodyHasBeenAnalyzed` flag. -/
def CNode.withAnalyzed (a : Bool) : CNode → CNode
  | .mk k _ es o t => .mk k a es o t

/-- Push an element onto the end of a block's `elements` array
(`block.elements.push(x)`). -/
def CNode.pushElement : CNode → CNode → CNode
  | .mk k a es o t, x => .mk k a (es ++ [x]) o t

/-- `new Trivia(token)`: a fresh trivia node with no origin and no cached
text (`SimpleNode`'s constructor calls `super()` with no node). -/
def mkTrivia (token : String) : CNode :=
  .mk (.trivia token) false [] none none

/-- `new CodeNode()`: a fresh base-class node (the lenient fallback). -/
def mkCodeNode : CNode :=
  .mk .codeNode false [] none none

/-- `new Source(fileName)`: a fresh unanalyzed source root. -/
def mkSource (fileName : String) : CNode :=
  .mk (.source fileName) false [] none none

/-- True exactly for the `Trivia` class (`v instanceof Trivia`). -/
def CNode.isTrivia (n : CNode) : Bool :=
  match n.kind with
  | .trivia _ => true
  | _ => false

/-- Whether the constructor class is `AbstractBlock` or one of its
subclasses modelled here (block-shaped nodes). -/
def CK.isBlock : CK → Bool
  | .abstractBlock => true
  | .codeBlock => true
  | .source _ => true
  | .abstractExpressionBlock => true
  | .variableDeclaration _ _ => true
  | _ => false

/-- `statementLevelTerminal()`: the `CodeNode` default is ";",
`AbstractBlock` overrides it to "", `Trivia` overrides it to "", and
`VariableDeclaration` overrides it back to ";". -/
def CNode.statementLevelTerminal (n : CNode) : String :=
  match n.kind with
  | .codeNode => ";"
  | .trivia _ => ""
  | .abstractBlock => ""
  | .codeBlock => ""
  | .source _ => ""
  | .abstractExpressionBlock => ""
  | .variableDeclaration _ _ => ";"

/-- `canAnalyzeBody()`: true iff the body has not been analyzed and the
element list is empty. -/
def CNode.canAnalyzeBody (n : CNode) : Bool :=
  !n.bodyHasBeenAnalyzed && n.elements.isEmpty

/-- `resetBody()`: clears the elements and the analyzed flag. -/
def CNode.resetBody : CNode → CNode
  | .mk k _ _ o t => .mk k false [] o t

/-! ### JavaScript string primitives used by the source

JavaScript indexes strings by code unit; the sources only ever look at the
first or last character and at single-character suffixes, which we model
on the character list underlying a Lean `String`. -/

/-- `s[s.length - 1]` as an optional character (undefined on ""). -/
def jsLastChar (s : String) : Option Char := s.data.getLast?

/-- `s[0]` as an optional character (undefined on ""). -/
def jsHeadChar (s : String) : Option Char := s.data.head?

/-- `s.substr(0, s.length - 1)`: the string without its last character. -/
def jsDropLastChar (s : String) : String := ⟨s.data.dropLast⟩

/-- Membership test of `/\s/.test(c)` for the characters that occur in
source trivia (space, tab, newline, carriage return, form feed,
vertical tab). -/
def jsIsSpace (c : Char) : Bool :=
  c = ' ' || c = '\t' || c = '\n' || c = '\r' || c = '\x0c' || c = '\x0b'

/-! ### Rendering: toString / buildString

`toString()` returns the cached text when set and otherwise computes,
caches and returns `buildString()`.  The cache write does not change the
returned value, so the returned string is computed here and the caching
side effect is reflected where needed by rewriting `text`.

`buildString()` dispatches on the constructor class:
* `CodeNode` and `AbstractBlock` throw;
* `Trivia` (via `SimpleNode`) returns its token;
* `AbstractStatementBlock` bodies (`Source`, `CodeBlock`) concatenate each
  element's `toString()` followed by its `statementLevelTerminal()`;
* `CodeBlock` wraps the body in braces;
* `Source` appends a newline when the body does not already end in one;
* `AbstractExpressionBlock` appends a comma to each part while tracking
  the last non-`Trivia` index, then removes the final character of the
  part at that index;
* `VariableDeclaration` prefixes the expression-block body with its
  modifiers and declaration keyword. -/

/-- The final value of `lastNoSpaceIdx` after the `map` in
`AbstractExpressionBlock.buildString()`: the index of the last
non-`Trivia` element, or `none` (-1 in the source) when there is none. -/
def lastNoSpaceIdxFrom : List CNode → Nat → Option Nat
  | [], _ => none
  | v :: rest, i =>
    match lastNoSpaceIdxFrom rest (i + 1) with
    | some j => some j
    | none => if v.isTrivia then none else some i

/-- `lastNoSpaceIdx` starting from index 0. -/
def lastNoSpaceIdx (es : List CNode) : Option Nat := lastNoSpaceIdxFrom es 0

/-- The `parts[lastNoSpaceIdx] = text.substr(0, text.length - 1)` step:
drop the final character of the part at the given index, when one exists. -/
def stripLastComma : Option Nat → List String → List String
  | none, parts => parts
  | some i, parts =>
    match parts.get? i with
    | none => parts
    | some s => parts.set i (jsDropLastChar s)

mutual

/-- `buildString()` for every modelled constructor class.  Child
renderings go through the cache-or-build body of `toString()` (written
inline here so that the recursion is structural; `toStr` below packages
it, and the `stmtBlockStr_cons`/`exprParts_cons` lemmas restate these
equations in terms of `toStr`). -/
def buildStr : CNode → Except String String
  | .mk k _ es _ _ =>
    match k with
    | .codeNode => .error "No text found for statement"
    | .trivia token => .ok token
    | .abstractBlock => .error "Block is abstract -- subclasses must implement buildString!"
    | .codeBlock =>
      match stmtBlockStr es with
      | .error e => .error e
      | .ok body => .ok ("\x7b" ++ body ++ "\x7d")
    | .source _ =>
      match stmtBlockStr es with
      | .error e => .error e
      | .ok body => .ok (if jsLastChar body ≠ some '\n' then body ++ "\n" else body)
    | .abstractExpressionBlock =>
      match exprParts es with
      | .error e => .error e
      | .ok parts => .ok (String.join (stripLastComma (lastNoSpaceIdx es) parts))
    | .variableDeclaration modifiers vtype =>
      match exprParts es with
      | .error e => .error e
      | .ok parts =>
        let decBody := String.join (stripLastComma (lastNoSpaceIdx es) parts)
        let decBody :=
          if !(match jsHeadChar decBody with
               | some c => jsIsSpace c
               | none => false) then " " ++ decBody else decBody
        .ok (String.intercalate " "
              (modifiers ++ [variableDeclarationString vtype]) ++ decBody)

/-- `AbstractStatementBlock.buildString()`: concatenation of
`s.toString() + s.statementLevelTerminal()` over the elements. -/
def stmtBlockStr : List CNode → Except String String
  | [] => .ok ""
  | s :: rest =>
    match (match s with
           | .mk _ _ _ _ (some str) => Except.ok str
           | .mk k a es o none => buildStr (.mk k a es o none)) with
    | .error e => .error e
    | .ok hd =>
      match stmtBlockStr rest with
      | .error e => .error e
      | .ok tl => .ok (hd ++ s.statementLevelTerminal ++ tl)

/-- The `parts` array built inside `AbstractExpressionBlock.buildString()`:
each non-`Trivia` element's rendering with "," appended, each `Trivia`
element's rendering unchanged. -/
def exprParts : List CNode → Except String (List String)
  | [] => .ok []
  | v :: rest =>
    match (match v with
           | .mk _ _ _ _ (some str) => Except.ok str
           | .mk k a es o none => buildStr (.mk k a es o none)) with
    | .error e => .error e
    | .ok s =>
      match exprParts rest with
      | .error e => .error e
      | .ok tl => .ok ((if v.isTrivia then s else s ++ ",") :: tl)

end

/-- `toString()`: the cached text if set, otherwise `buildString()`
(which `toString` then also caches; the cache write is reflected
explicitly where a theorem needs it, and never changes the returned
string). -/
def toStr : CNode → Except String String
  | .mk _ _ _ _ (some s) => .ok s
  | .mk k a es o none => buildStr (.mk k a es o none)

/-! ### markDirty

`markDirty(recursive)` returns immediately when the receiver's
constructor is the base `CodeNode` class; otherwise it nulls the cached
text and, when `recursive`, walks every descendant breadth-first calling
the non-recursive `markDirty` on each.  The walk reaches exactly the
nodes in the `getChildren()` closure and applies a purely local update to
each, so it is embedded as the structural map below: every node of the
subtree has its cached text nulled unless its class is the base
`CodeNode` (whose children are also empty, so nothing lies beneath it). -/

mutual

/-- Effect of the recursive `markDirty` walk on a subtree: null the text
of every node whose constructor is not the base `CodeNode` class. -/
def markDirtyAll : CNode → CNode
  | .mk k a es o t =>
    match k with
    | .codeNode => .mk .codeNode a es o t
    | .trivia token => .mk (.trivia token) a es o none
    | _ => .mk k a (markDirtyAllList es) o none

/-- `markDirtyAll` mapped over an element list. -/
def markDirtyAllList : List CNode → List CNode
  | [] => []
  | x :: xs => markDirtyAll x :: markDirtyAllList xs

end

/-- `markDirty(recursive)`: no-op on the base class, otherwise nulls the
cached text, recursively over all descendants when `recursive`. -/
def markDirty (recursive : Bool) (n : CNode) : CNode :=
  if n.kind = .codeNode then n
  else if recursive then markDirtyAll n
  else n.withText none

/-! ### The analyzer module

Thrown `Error`s are embedded as `Except String`, carrying the message the
source builds.  `performBlockAnalysis` additionally returns, on error, the
block as mutated so far (in TypeScript the block object is mutated in
place before the exception propagates).  The element analyzer
(`analyzeModuleElement` / `analyzeStatement` / ... -- a dispatch over
every typescript syntax kind that recursively builds semantic nodes) is
taken as a parameter of type `PNode → Except String CNode`; every theorem
below quantifies over it, so the results hold for the concrete dispatch
as well.  The module-level `strictMode` variable becomes an explicit
parameter. -/

/-- `failAnalysis(node, type)`: the error thrown for both unsupported
constructs and malformed references; nothing but the message
distinguishes them. -/
def failAnalysis (node : PNode) (ty : String) : Except String CNode :=
  .error ("Could not analyze " ++ ty ++ ": found " ++ node.text ++
    ", kind was " ++ toString node.kind)

/-- The semicolon strip in `addSpacingAndGetExpressionText`:
`if (shortText[shortText.length - 1] == ";") shortText =
shortText.substr(0, shortText.length - 1)`. -/
def stripTrailingSemicolon (s : String) : String :=
  if jsLastChar s = some ';' then jsDropLastChar s else s

/-- `addSpacingAndGetExpressionText(node, block)`: pushes the node's
leading trivia onto the block as a `Trivia` element when non-empty, and
returns the node's `getText()` with a single trailing semicolon
stripped.  Result: the updated block and the expression text. -/
def addSpacingAndGetExpressionText (node : PNode) (block : CNode) :
    CNode × String :=
  let filler := node.leading
  let block := if filler.length > 0 then block.pushElement (mkTrivia filler) else block
  (block, stripTrailingSemicolon node.text)

/-- `addToBlock(statement, block, element)`: runs
`addSpacingAndGetExpressionText`, overwrites the statement's cached text
with the returned expression text, and pushes the statement. -/
def addToBlock (statement : CNode) (block : CNode) (element : PNode) : CNode :=
  let (block, expressionText) := addSpacingAndGetExpressionText element block
  block.pushElement (statement.setText expressionText)

/-- Whether `lastToken == block.elements[block.elements.length - 1].node`:
object identity of parse nodes is modelled by id equality; a `Trivia`
element has no `node`, so the comparison is false for it. -/
def lastElementNodeIdIs (block : CNode) (tokenId : Nat) : Bool :=
  match block.elements.getLast? with
  | some e =>
    match e.node with
    | some (.node n) => n.id = tokenId
    | _ => false
  | none => false

/-- The `lastToken` lookup of `addTrailingBlockSpacing`: the source
file's `endOfFileToken` for a `Source`, otherwise
`blockNode.getLastToken()` (as the token's id and leading trivia).
`analyze` always registers the source's node before reaching this, so
the `sourceNode`-null case cannot arise there and is embedded as a
no-op `none`. -/
def blockLastToken (block : CNode) : Option (Nat × String) :=
  match block.kind, block.node with
  | .source _, some (.file f) => some (f.eof.id, f.eof.leading)
  | .source _, _ => none
  | _, some (.node n) => n.lastTok
  | _, _ => none

/-- `addTrailingBlockSpacing(block, blockNode)`: finds the block's last
token via `blockLastToken`, returns unchanged when there is none or when
it is already the last element's node, and otherwise pushes the token's
leading trivia as a final `Trivia` element when non-empty. -/
def addTrailingBlockSpacing (block : CNode) : CNode :=
  match blockLastToken block with
  | none => block
  | some (tid, tleading) =>
    if block.elements.length > 0 && lastElementNodeIdIs block tid then block
    else if tleading.length > 0 then block.pushElement (mkTrivia tleading)
    else block

/-- The `elements.forEach` loop of `performBlockAnalysis`: analyze each
parse element, substituting a fresh base `CodeNode` carrying the
element's text when the analyzer throws and `strictMode` is off,
rethrowing (with the block as mutated so far) when it is on. -/
def performBlockAnalysisLoop (strictMode : Bool)
    (elementAnalyzer : PNode → Except String CNode)
    (elements : List PNode) (block : CNode) : Except (String × CNode) CNode :=
  match elements with
  | [] => .ok block
  | e :: rest =>
    match elementAnalyzer e with
    | .ok codeNode =>
      performBlockAnalysisLoop strictMode elementAnalyzer rest
        (addToBlock codeNode block e)
    | .error err =>
      if strictMode then .error (err, block)
      else
        let codeNode := (mkCodeNode.registerWithNode (.node e)).setText e.text
        performBlockAnalysisLoop strictMode elementAnalyzer rest
          (addToBlock codeNode block e)

/-- `performBlockAnalysis(block, elements, elementAnalyzer,
ignoreTrailing)`: a no-op returning the block when `canAnalyzeBody()` is
false; otherwise runs the element loop, adds the trailing block spacing
unless `ignoreTrailing`, and sets `bodyHasBeenAnalyzed`. -/
def performBlockAnalysis (strictMode : Bool) (block : CNode)
    (elements : List PNode) (elementAnalyzer : PNode → Except String CNode)
    (ignoreTrailing : Bool := false) : Except (String × CNode) CNode :=
  if !block.canAnalyzeBody then .ok block
  else
    match performBlockAnalysisLoop strictMode elementAnalyzer elements block with
    | .error r => .error r
    | .ok b =>
      let b := if ignoreTrailing then b else addTrailingBlockSpacing b
      .ok (b.withAnalyzed true)

/-! ### AnalyzerHost and SourceAnalyzer -/

/-- The host state: the `ts.Program`'s source files and the
`sources` registry mapping a normalized path to its canonical `Source`
node.  (The in-place mutation of a registered `Source` object is embedded
by writing the updated node back into the registry.) -/
structure Host where
  program : List PFile
  sources : List (String × CNode)
  deriving Repr

/-- Model of node's `path.normalize`, an external collaborator; the
development relies only on it being a deterministic function of the
path. -/
def pathNormalize (p : String) : String := p

/-- `program.getSourceFile(fileName)`. -/
def getSourceFile (program : List PFile) (fileName : String) : Option PFile :=
  program.find? (fun f => f.fileName = fileName)

/-- The `fileName` a `Source` node was constructed with (used only on
nodes of the `Source` class). -/
def sourceFileName (n : CNode) : String :=
  match n.kind with
  | .source fn => fn
  | _ => ""

/-- Replace the binding of a key in the registry, appending it when
absent (`this.sources[normalizedPath] = ...`). -/
def updateAssoc : List (String × CNode) → String → CNode → List (String × CNode)
  | [], k, v => [(k, v)]
  | (k', v') :: rest, k, v =>
    if k' = k then (k, v) :: rest else (k', v') :: updateAssoc rest k v

/-- `getSource(sourcePath)`: returns the registered `Source` for the
normalized path, creating and registering a fresh one on first request.
Returns the (possibly updated) host along with the node. -/
def getSource (h : Host) (sourcePath : String) : Host × CNode :=
  let np := pathNormalize sourcePath
  match h.sources.lookup np with
  | some s => (h, s)
  | none =>
    let s := mkSource np
    ({ h with sources := updateAssoc h.sources np s }, s)

/-- The `SourceAnalyzer` configuration object. -/
structure SourceAnalyzer where
  source : CNode
  sourceFile : PFile
  recursive : Bool
  deriving Repr

/-- `getAnalyzer(source, recursive)`: throws on a null source, resolves
the path through `getSource`, throws when the program has no matching
source file, and otherwise yields a `SourceAnalyzer`.  The argument is
`Option (String ⊕ CNode)` because the TypeScript parameter may be null, a
path, or an existing `Source` instance. -/
def getAnalyzer (h : Host) (source : Option (String ⊕ CNode))
    (recursive : Bool) : Except String (Host × SourceAnalyzer) :=
  match source with
  | none => .error "Null source passed to getAnalyzer!"
  | some src =>
    let hs : Host × CNode :=
      match src with
      | .inl p => getSource h p
      | .inr s => (h, s)
    match getSourceFile hs.1.program (sourceFileName hs.2) with
    | none => .error ("Source " ++ sourceFileName hs.2 ++
        " could not be found in the runtime.")
    | some sf => .ok (hs.1, ⟨hs.2, sf, recursive⟩)

/-- `SourceAnalyzer.analyze()`: registers the source file as the root's
node, caches the file's full text as the root's text, and analyzes the
file's statement list into the root block. -/
def analyzerAnalyze (strictMode : Bool)
    (elementAnalyzer : PNode → Except String CNode)
    (a : SourceAnalyzer) : Except (String × CNode) CNode :=
  let src := (a.source.registerWithNode (.file a.sourceFile)).setText
    a.sourceFile.fullText
  performBlockAnalysis strictMode src a.sourceFile.statements elementAnalyzer

/-- `AnalyzerHost.analyze(path, recursive)`: `getAnalyzer(...).analyze()`.
On either error the message is paired with the host as mutated so far; on
success the analyzed root is written back to the registry slot it was
read from (modelling that the registry holds the very object the analyzer
mutated). -/
def hostAnalyze (strictMode : Bool)
    (elementAnalyzer : PNode → Except String CNode)
    (h : Host) (sourcePath : String) (recursive : Bool) :
    Except (String × Host) (Host × CNode) :=
  match getAnalyzer h (some (.inl sourcePath)) recursive with
  | .error e => .error (e, h)
  | .ok (h1, a) =>
    match analyzerAnalyze strictMode elementAnalyzer a with
    | .error (e, partialSource) =>
      .error (e, { h1 with
        sources := updateAssoc h1.sources (pathNormalize sourcePath) partialSource })
    | .ok out =>
      .ok ({ h1 with
        sources := updateAssoc h1.sources (pathNormalize sourcePath) out }, out)

/-! ### Specification-side helpers

These definitions come from the claims' wording, not from the source;
each theorem below relates them to the embedded source functions. -/

/-- Remove every trailing newline of a string ("trailing-newline
normalization": two strings are equivalent up to it iff this function
sends them to the same string). -/
def dropTrailingNewlines (s : String) : String :=
  ⟨(s.data.reverse.dropWhile (fun c => c = '\n')).reverse⟩

/-- Whether a string ends with exactly one trailing newline: its last
character is a newline and the character before (if any) is not. -/
def endsWithExactlyOneNewline (s : String) : Bool :=
  s.data.getLast? = some '\n' && !(s.data.dropLast.getLast? = some '\n')

/-- Pointwise rendering of an element list: each element's `toString()`
succeeds with the corresponding string. -/
def rendersTo (es : List CNode) (ss : List String) : Prop :=
  List.Forall₂ (fun n s => toStr n = .ok s) es ss

/-- The claim's comma rule applied to pointwise renderings: trivia
elements never receive a comma, and a non-trivia element receives one
exactly when a later non-trivia element exists (so the last non-trivia
element — the final semantic one — never does). -/
def commaSpecParts : List CNode → List String → List String
  | _, [] => []
  | [], _ :: _ => []
  | v :: rest, s :: ss =>
    if v.isTrivia then s :: commaSpecParts rest ss
    else if rest.all CNode.isTrivia then s :: commaSpecParts rest ss
    else (s ++ ",") :: commaSpecParts rest ss

mutual

/-- Cached texts of every node of the subtree whose constructor is the
base `CodeNode` class, in traversal order. -/
def baseNodeTexts : CNode → List (Option String)
  | .mk k _ es _ t =>
    (match k with
     | .codeNode => [t]
     | _ => []) ++ baseNodeTextsList es

/-- `baseNodeTexts` concatenated over an element list. -/
def baseNodeTextsList : List CNode → List (Option String)
  | [] => []
  | x :: xs => baseNodeTexts x ++ baseNodeTextsList xs

end

/-! ### Basic lemmas about the node operations -/

@[simp] lemma kind_mk (k a es o t) : (CNode.mk k a es o t).kind = k := rfl

@[simp] lemma analyzed_mk (k a es o t) :
    (CNode.mk k a es o t).bodyHasBeenAnalyzed = a := rfl

@[simp] lemma elements_mk (k a es o t) : (CNode.mk k a es o t).elements = es := rfl

@[simp] lemma node_mk (k a es o t) : (CNode.mk k a es o t).node = o := rfl

@[simp] lemma text_mk (k a es o t) : (CNode.mk k a es o t).text = t := rfl

@[simp] lemma setText_mk (k a es o t s) :
    (CNode.mk k a es o t).setText s = .mk k a es o (some s) := rfl

@[simp] lemma withText_mk (k a es o t t') :
    (CNode.mk k a es o t).withText t' = .mk k a es o t' := rfl

@[simp] lemma registerWithNode_mk (k a es o t o') :
    (CNode.mk k a es o t).registerWithNode o' = .mk k a es (some o') t := rfl

@[simp] lemma withAnalyzed_mk (k a es o t a') :
    (CNode.mk k a es o t).withAnalyzed a' = .mk k a' es o t := rfl

@[simp] lemma pushElement_mk (k a es o t x) :
    (CNode.mk k a es o t).pushElement x = .mk k a (es ++ [x]) o t := rfl

/-- A node whose back-reference and cached text already have the given
values is unchanged by `registerWithNode` then `setText` with them. -/
lemma registerSetText_self (n : CNode) (o : POrigin) (s : String)
    (hn : n.node = some o) (ht : n.text = some s) :
    (n.registerWithNode o).setText s = n := by
  cases n with
  | mk k a es o' t =>
    simp only [CNode.node] at hn
    simp only [CNode.text] at ht
    subst hn; subst ht; rfl

/-- `toString()` of a node with cached text. -/
@[simp] lemma toStr_sometext (k a es o s) :
    toStr (.mk k a es o (some s)) = .ok s := rfl

/-- `toString()` of a node without cached text is `buildString()`. -/
lemma toStr_notext (k a es o) :
    toStr (.mk k a es o none) = buildStr (.mk k a es o none) := rfl

/-- The statement-block concatenation, restated through `toString()`. -/
lemma stmtBlockStr_cons (s : CNode) (rest : List CNode) :
    stmtBlockStr (s :: rest) =
      (match toStr s with
       | .error e => .error e
       | .ok hd =>
         match stmtBlockStr rest with
         | .error e => .error e
         | .ok tl => .ok (hd ++ s.statementLevelTerminal ++ tl)) := by
  match s with
  | .mk _ _ _ _ (some _) => rfl
  | .mk _ _ _ _ none => rfl

/-- The expression-block parts computation, restated through
`toString()`. -/
lemma exprParts_cons (v : CNode) (rest : List CNode) :
    exprParts (v :: rest) =
      (match toStr v with
       | .error e => .error e
       | .ok s =>
         match exprParts rest with
         | .error e => .error e
         | .ok tl => .ok ((if v.isTrivia then s else s ++ ",") :: tl)) := by
  match v with
  | .mk _ _ _ _ (some _) => rfl
  | .mk _ _ _ _ none => rfl

/-! ### String lemmas for the JavaScript primitives -/

/-- Rebuilding a string from its character data is the identity. -/
lemma strMk_data (s : String) : String.mk s.data = s := by
  cases s; rfl

/-- Character data of an appended string. -/
lemma data_append (s t : String) : (s ++ t).data = s.data ++ t.data := by
  cases s; cases t; rfl

/-- Dropping the last character of `s ++ ","` restores `s`. -/
lemma jsDropLastChar_append_comma (s : String) :
    jsDropLastChar (s ++ ",") = s := by
  unfold jsDropLastChar
  rw [data_append]
  show String.mk ((s.data ++ [',']).dropLast) = s
  rw [List.dropLast_concat, strMk_data]

/-- The last character of `s ++ "\n"` is a newline. -/
lemma jsLastChar_append_newline (s : String) :
    jsLastChar (s ++ "\n") = some '\n' := by
  unfold jsLastChar
  rw [data_append]
  show ((s.data ++ ['\n']).getLast?) = some '\n'
  simp

/-- A string whose last character is `c` is its front followed by `c`. -/
lemma eq_dropLast_append_of_jsLastChar (s : String) (c : Char)
    (h : jsLastChar s = some c) :
    s = jsDropLastChar s ++ String.mk [c] := by
  unfold jsLastChar at h
  unfold jsDropLastChar
  cases s with
  | mk l =>
    match l, h with
    | [], h => simp [List.getLast?] at h
    | x :: xs, h =>
      have hne : x :: xs ≠ [] := by simp
      have hl : (x :: xs).getLast hne = c := by
        rw [List.getLast?_eq_getLast _ hne] at h
        exact Option.some_injective _ h
      show String.mk (x :: xs) = String.mk ((x :: xs).dropLast) ++ String.mk [c]
      have : String.mk ((x :: xs).dropLast) ++ String.mk [c] =
          String.mk ((x :: xs).dropLast ++ [c]) := rfl
      rw [this, ← hl, List.dropLast_append_getLast hne]

/-! ### Lemmas about the analyzer -/

/-- What `addToBlock` appends: the element's leading trivia (when
non-empty) followed by the statement carrying the semicolon-stripped
element text; no other field of the block changes. -/
lemma addToBlock_elements (statement block : CNode) (e : PNode) :
    (addToBlock statement block e).elements =
      block.elements ++
        (if e.leading.length > 0 then [mkTrivia e.leading] else []) ++
        [statement.setText (stripTrailingSemicolon e.text)] := by
  cases block with
  | mk k a es o t =>
    by_cases h : e.leading.length > 0 <;>
      simp [addToBlock, addSpacingAndGetExpressionText, h]

/-- `addToBlock` preserves the block's class, flag, node and text. -/
lemma addToBlock_fields (statement block : CNode) (e : PNode) :
    (addToBlock statement block e).kind = block.kind ∧
    (addToBlock statement block e).bodyHasBeenAnalyzed = block.bodyHasBeenAnalyzed ∧
    (addToBlock statement block e).node = block.node ∧
    (addToBlock statement block e).text = block.text := by
  cases block with
  | mk k a es o t =>
    by_cases h : e.leading.length > 0 <;>
      simp [addToBlock, addSpacingAndGetExpressionText, h]

/-- `addTrailingBlockSpacing` preserves the block's class, flag, node and
text and can only append to its elements. -/
lemma addTrailingBlockSpacing_fields (block : CNode) :
    (addTrailingBlockSpacing block).kind = block.kind ∧
    (addTrailingBlockSpacing block).bodyHasBeenAnalyzed = block.bodyHasBeenAnalyzed ∧
    (addTrailingBlockSpacing block).node = block.node ∧
    (addTrailingBlockSpacing block).text = block.text ∧
    ∃ tail, (addTrailingBlockSpacing block).elements = block.elements ++ tail := by
  unfold addTrailingBlockSpacing
  rcases blockLastToken block with _ | ⟨tid, tleading⟩
  · exact ⟨rfl, rfl, rfl, rfl, [], by simp⟩
  · simp only []
    split_ifs with h1 h2
    · exact ⟨rfl, rfl, rfl, rfl, [], by simp⟩
    · cases block with
      | mk k a es o t => exact ⟨rfl, rfl, rfl, rfl, [mkTrivia tleading], by simp⟩
    · exact ⟨rfl, rfl, rfl, rfl, [], by simp⟩

/-- The element loop preserves the block's class, flag, node and text,
and only ever appends to its elements. -/
lemma performBlockAnalysisLoop_fields (strictMode : Bool)
    (an : PNode → Except String CNode) :
    ∀ (elements : List PNode) (block out : CNode),
      performBlockAnalysisLoop strictMode an elements block = .ok out →
      out.kind = block.kind ∧
      out.bodyHasBeenAnalyzed = block.bodyHasBeenAnalyzed ∧
      out.node = block.node ∧
      out.text = block.text ∧
      ∃ tail, out.elements = block.elements ++ tail := by
  intro elements
  induction elements with
  | nil =>
    intro block out h
    simp only [performBlockAnalysisLoop] at h
    cases h
    exact ⟨rfl, rfl, rfl, rfl, [], by simp⟩
  | cons e rest ih =>
    intro block out h
    simp only [performBlockAnalysisLoop] at h
    rcases he : an e with msg | codeNode
    · simp only [he] at h
      by_cases hs : strictMode = true
      · rw [if_pos hs] at h
        cases h
      · rw [if_neg hs] at h
        obtain ⟨h1, h2, h3, h4, tail, h5⟩ := ih _ _ h
        obtain ⟨g1, g2, g3, g4⟩ := addToBlock_fields
          ((mkCodeNode.registerWithNode (.node e)).setText e.text) block e
        refine ⟨h1.trans g1, h2.trans g2, h3.trans g3, h4.trans g4, ?_⟩
        rw [addToBlock_elements] at h5
        simp only [List.append_assoc] at h5
        exact ⟨_, h5⟩
    · simp only [he] at h
      obtain ⟨h1, h2, h3, h4, tail, h5⟩ := ih _ _ h
      obtain ⟨g1, g2, g3, g4⟩ := addToBlock_fields codeNode block e
      refine ⟨h1.trans g1, h2.trans g2, h3.trans g3, h4.trans g4, ?_⟩
      rw [addToBlock_elements] at h5
      simp only [List.append_assoc] at h5
      exact ⟨_, h5⟩

/-- A block that cannot analyze its body makes `performBlockAnalysis` a
no-op returning the block unchanged. -/
lemma performBlockAnalysis_noop (strictMode : Bool) (block : CNode)
    (elements : List PNode) (an : PNode → Except String CNode)
    (ignoreTrailing : Bool) (h : block.canAnalyzeBody = false) :
    performBlockAnalysis strictMode block elements an ignoreTrailing = .ok block := by
  simp [performBlockAnalysis, h]

/-- A successful `performBlockAnalysis` either was a no-op on a block
that could not analyze, or produced a block with the same class, node and
text whose flag is now set and whose elements only grew. -/
lemma performBlockAnalysis_ok (strictMode : Bool) (block : CNode)
    (elements : List PNode) (an : PNode → Except String CNode)
    (ignoreTrailing : Bool) (out : CNode)
    (h : performBlockAnalysis strictMode block elements an ignoreTrailing = .ok out) :
    (out = block ∧ block.canAnalyzeBody = false) ∨
    (out.kind = block.kind ∧ out.node = block.node ∧ out.text = block.text ∧
      out.bodyHasBeenAnalyzed = true ∧
      ∃ tail, out.elements = block.elements ++ tail) := by
  unfold performBlockAnalysis at h
  by_cases hc : block.canAnalyzeBody
  · right
    simp only [hc, Bool.not_true, Bool.false_eq_true, if_false] at h
    rcases hl : performBlockAnalysisLoop strictMode an elements block with r | b
    · rw [hl] at h; cases h
    · rw [hl] at h
      obtain ⟨l1, l2, l3, l4, ltail, l5⟩ :=
        performBlockAnalysisLoop_fields strictMode an elements block b hl
      by_cases hi : ignoreTrailing
      · simp only [hi, if_true] at h
        cases h
        cases b with
        | mk kb ab esb ob tb => exact ⟨l1, l3, l4, rfl, ltail, l5⟩
      · simp only [hi, Bool.false_eq_true, if_false] at h
        cases h
        obtain ⟨t1, t2, t3, t4, ttail, t5⟩ := addTrailingBlockSpacing_fields b
        cases htb : addTrailingBlockSpacing b with
        | mk kb ab esb ob tb =>
          rw [htb] at t1 t2 t3 t4 t5
          simp only [kind_mk, analyzed_mk, elements_mk, node_mk, text_mk] at t1 t2 t3 t4 t5
          refine ⟨by simp [t1, l1], by simp [t3, l3], by simp [t4, l4], by simp, ?_⟩
          exact ⟨ltail ++ ttail, by simp [t5, l5]⟩
  · left
    simp only [hc] at h
    simp only [Bool.not_false, if_true] at h
    cases h
    exact ⟨rfl, by simpa using hc⟩

/-- `canAnalyzeBody` is false once the flag is set. -/
lemma canAnalyzeBody_false_of_analyzed (n : CNode)
    (h : n.bodyHasBeenAnalyzed = true) : n.canAnalyzeBody = false := by
  simp [CNode.canAnalyzeBody, h]

/-! ### Lemmas about the registry -/

@[simp] lemma lookup_updateAssoc (l : List (String × CNode)) (k : String) (v : CNode) :
    (updateAssoc l k v).lookup k = some v := by
  induction l with
  | nil => simp [updateAssoc]
  | cons p rest ih =>
    cases p with
    | mk k' v' =>
      by_cases h : k' = k
      · subst h; simp [updateAssoc, List.lookup]
      · have hk : (k == k') = false := by
          simp only [beq_eq_false_iff_ne, ne_eq]
          exact fun e => h e.symm
        simp [updateAssoc, h, List.lookup, hk, ih]

lemma updateAssoc_idem (l : List (String × CNode)) (k : String) (v : CNode) :
    updateAssoc (updateAssoc l k v) k v = updateAssoc l k v := by
  induction l with
  | nil => simp [updateAssoc]
  | cons p rest ih =>
    by_cases h : p.1 = k
    · simp [updateAssoc, h]
    · simp [updateAssoc, h, ih]

/-! ### Lemmas about markDirty -/

mutual

theorem baseNodeTexts_markDirtyAll :
    ∀ n : CNode, baseNodeTexts (markDirtyAll n) = baseNodeTexts n := by
  intro n
  match n with
  | .mk k a es o t =>
    cases k <;>
      simp [markDirtyAll, baseNodeTexts, baseNodeTextsList_markDirtyAllList es]

theorem baseNodeTextsList_markDirtyAllList :
    ∀ l : List CNode, baseNodeTextsList (markDirtyAllList l) = baseNodeTextsList l := by
  intro l
  match l with
  | [] => rfl
  | x :: xs =>
    simp [markDirtyAllList, baseNodeTextsList, baseNodeTexts_markDirtyAll x,
      baseNodeTextsList_markDirtyAllList xs]

end

/-! ### Claim C10 -/

/-- C10: calling `toString()` on a directly constructed base `CodeNode`
(or a bare `AbstractBlock`) whose cached text is unset throws an error
instead of returning a string, while a set cached text always renders
successfully (so only a set text or a subclass `buildString` override can
make a render succeed). -/
theorem c10_unset_text_render_throws :
    (∀ (a : Bool) (es : List CNode) (o : Option POrigin),
      toStr (.mk .codeNode a es o none) = .error "No text found for statement") ∧
    (∀ (a : Bool) (es : List CNode) (o : Option POrigin),
      toStr (.mk .abstractBlock a es o none) =
        .error "Block is abstract -- subclasses must implement buildString!") ∧
    (∀ (k : CK) (a : Bool) (es : List CNode) (o : Option POrigin) (s : String),
      toStr (.mk k a es o (some s)) = .ok s) :=
  ⟨fun _ _ _ => rfl, fun _ _ _ => rfl, fun _ _ _ _ _ => rfl⟩

/-! ### Claim C5 -/

/-- C5: for every node whose constructor is exactly the base `CodeNode`
class, `markDirty` — with or without `recursive`, directly or reached
through a recursive `markDirty` of an ancestor — leaves the cached text
unchanged, so a subsequent `toString()` still returns the original
literal text. -/
theorem c5_fallback_nodes_keep_text :
    (∀ (n : CNode) (r : Bool), n.kind = .codeNode → markDirty r n = n) ∧
    (∀ (n : CNode) (r : Bool),
      baseNodeTexts (markDirty r n) = baseNodeTexts n) ∧
    (∀ (a : Bool) (es : List CNode) (o : Option POrigin) (s : String) (r : Bool),
      toStr (markDirty r (.mk .codeNode a es o (some s))) = .ok s) := by
  have h1 : ∀ (n : CNode) (r : Bool), n.kind = .codeNode → markDirty r n = n := by
    intro n r h
    simp [markDirty, h]
  refine ⟨h1, ?_, ?_⟩
  · intro n r
    unfold markDirty
    by_cases hk : n.kind = .codeNode
    · simp [hk]
    · by_cases hr : r
      · simp [hk, hr, baseNodeTexts_markDirtyAll]
      · cases n with
        | mk k a es o t =>
          simp only [kind_mk] at hk
          cases k
          · exact absurd rfl hk
          all_goals simp [hk, hr, baseNodeTexts]
  · intro a es o s r
    rw [h1 (.mk .codeNode a es o (some s)) r rfl]
    rfl

/-- Witness for C5: a concrete fallback node with cached text "1 + 1"
survives a recursive `markDirty` and still renders it. -/
theorem c5_witness :
    markDirty true (.mk .codeNode false [] none (some "1 + 1")) =
        .mk .codeNode false [] none (some "1 + 1") ∧
    toStr (markDirty true (.mk .codeNode false [] none (some "1 + 1"))) =
        .ok "1 + 1" :=
  ⟨c5_fallback_nodes_keep_text.1 (.mk .codeNode false [] none (some "1 + 1")) true rfl,
   c5_fallback_nodes_keep_text.2.2 false [] none "1 + 1" true⟩

/-! ### Claim C7 -/

/-- C7 counterexample: `VariableDeclaration` is an `AbstractBlock`
subclass (block-shaped) yet its `statementLevelTerminal()` is ";", and
`Trivia` is a non-block node yet its terminal is "" — refuting the claim
that the terminal is ";" for every non-block node and "" for every
`AbstractBlock` subclass. -/
theorem c7_counterexample :
    (CK.variableDeclaration [] .VAR).isBlock = true ∧
    (CNode.mk (.variableDeclaration [] .VAR) false [] none none).statementLevelTerminal = ";" ∧
    (";" : String) ≠ "" ∧
    (CK.trivia " ").isBlock = false ∧
    (CNode.mk (.trivia " ") false [] none none).statementLevelTerminal = "" ∧
    ("" : String) ≠ ";" := by
  refine ⟨rfl, rfl, ?_, rfl, rfl, ?_⟩ <;> decide

/-- C7 amended: `statementLevelTerminal()` is ";" for the base
`CodeNode` default; block-shaped nodes return "" — with the exception of
`VariableDeclaration`, which overrides it back to ";" — and the
non-block `Trivia` also overrides it to "". -/
theorem c7_amended_terminals :
    ∀ n : CNode,
      (n.kind = .codeNode → n.statementLevelTerminal = ";") ∧
      (∀ tok, n.kind = .trivia tok → n.statementLevelTerminal = "") ∧
      (∀ mods vt, n.kind = .variableDeclaration mods vt →
        n.statementLevelTerminal = ";") ∧
      (n.kind.isBlock = true →
        (∀ mods vt, n.kind ≠ .variableDeclaration mods vt) →
        n.statementLevelTerminal = "") := by
  intro n
  cases n with
  | mk k a es o t =>
    cases k with
    | variableDeclaration mods vt =>
      exact ⟨by simp, by simp, fun _ _ _ => rfl,
        fun _ hne => absurd rfl (hne mods vt)⟩
    | codeNode => exact ⟨fun _ => rfl, by simp, by simp, by simp [CK.isBlock]⟩
    | trivia tok => exact ⟨by simp, fun _ _ => rfl, by simp, by simp [CK.isBlock]⟩
    | abstractBlock => exact ⟨by simp, by simp, by simp, fun _ _ => rfl⟩
    | codeBlock => exact ⟨by simp, by simp, by simp, fun _ _ => rfl⟩
    | source fn => exact ⟨by simp, by simp, by simp, fun _ _ => rfl⟩
    | abstractExpressionBlock => exact ⟨by simp, by simp, by simp, fun _ _ => rfl⟩

/-- Witness for C7's amended claim: the concrete `VariableDeclaration`
and `CodeBlock` instances take their amended terminals. -/
theorem c7_witness :
    (CNode.mk (.variableDeclaration [] .VAR) false [] none none).statementLevelTerminal = ";" ∧
    (CNode.mk .codeBlock false [] none none).statementLevelTerminal = "" :=
  ⟨(c7_amended_terminals (.mk (.variableDeclaration [] .VAR) false [] none none)).2.2.1
      [] .VAR rfl,
   (c7_amended_terminals (.mk .codeBlock false [] none none)).2.2.2 rfl
      (fun _ _ h => CK.noConfusion h)⟩

/-! ### Claim C8 -/

/-- C8 counterexample: analyzing a concrete file that ends with two
newlines yields a root whose `toString()` is the original text with both
newlines, and even a full recursive `markDirty` followed by
`buildString()` rebuilds both of them — so the root's render does not end
with exactly one trailing newline. -/
theorem c8_counterexample :
    analyzerAnalyze false (fun e => .ok (mkCodeNode.registerWithNode (.node e)))
        ⟨mkSource "c8.ts", ⟨50, "c8.ts", [⟨1, "", "var a = 1;", 2, none⟩],
          ⟨100, "\n\n", "", 1, none⟩⟩, true⟩ =
      .ok (.mk (.source "c8.ts") true
        [.mk .codeNode false [] (some (.node ⟨1, "", "var a = 1;", 2, none⟩))
          (some "var a = 1"),
         .mk (.trivia "\n\n") false [] none none]
        (some (.file ⟨50, "c8.ts", [⟨1, "", "var a = 1;", 2, none⟩],
          ⟨100, "\n\n", "", 1, none⟩⟩))
        (some "var a = 1;\n\n")) ∧
    toStr (.mk (.source "c8.ts") true
        [.mk .codeNode false [] (some (.node ⟨1, "", "var a = 1;", 2, none⟩))
          (some "var a = 1"),
         .mk (.trivia "\n\n") false [] none none]
        (some (.file ⟨50, "c8.ts", [⟨1, "", "var a = 1;", 2, none⟩],
          ⟨100, "\n\n", "", 1, none⟩⟩))
        (some "var a = 1;\n\n")) = .ok "var a = 1;\n\n" ∧
    buildStr (markDirty true (.mk (.source "c8.ts") true
        [.mk .codeNode false [] (some (.node ⟨1, "", "var a = 1;", 2, none⟩))
          (some "var a = 1"),
         .mk (.trivia "\n\n") false [] none none]
        (some (.file ⟨50, "c8.ts", [⟨1, "", "var a = 1;", 2, none⟩],
          ⟨100, "\n\n", "", 1, none⟩⟩))
        (some "var a = 1;\n\n"))) = .ok "var a = 1;\n\n" ∧
    endsWithExactlyOneNewline "var a = 1;\n\n" = false := by
  exact ⟨rfl, rfl, rfl, by decide⟩

/-- C8 amended: `Source.buildString()` guarantees at least one trailing
newline — it appends one exactly when the statement-block concatenation
does not already end with a newline and never collapses existing ones —
and `toString()` returns a set cached text unchanged (so an analyzed,
unmutated root renders the original text verbatim). -/
theorem c8_amended_trailing_newline :
    (∀ (fn : String) (a : Bool) (es : List CNode) (o : Option POrigin) (s : String),
      buildStr (.mk (.source fn) a es o none) = .ok s →
      jsLastChar s = some '\n') ∧
    (∀ (fn : String) (a : Bool) (es : List CNode) (o : Option POrigin) (body : String),
      stmtBlockStr es = .ok body →
      buildStr (.mk (.source fn) a es o none) =
        .ok (if jsLastChar body ≠ some '\n' then body ++ "\n" else body)) ∧
    (∀ (k : CK) (a : Bool) (es : List CNode) (o : Option POrigin) (s : String),
      toStr (.mk k a es o (some s)) = .ok s) := by
  have h2 : ∀ (fn : String) (a : Bool) (es : List CNode) (o : Option POrigin)
      (body : String), stmtBlockStr es = .ok body →
      buildStr (.mk (.source fn) a es o none) =
        .ok (if jsLastChar body ≠ some '\n' then body ++ "\n" else body) := by
    intro fn a es o body hb
    simp only [buildStr, hb]
  refine ⟨?_, h2, fun _ _ _ _ _ => rfl⟩
  intro fn a es o s h
  rcases hb : stmtBlockStr es with e | body
  · simp only [buildStr, hb] at h
    exact Except.noConfusion h
  · rw [h2 fn a es o body hb] at h
    by_cases hn : jsLastChar body = some '\n'
    · rw [if_neg (by simpa using hn)] at h
      cases h
      exact hn
    · rw [if_pos (by simpa using hn)] at h
      cases h
      exact jsLastChar_append_newline body

/-- Witness for C8's amended claim: the empty source builds "\n",
which indeed ends with a newline. -/
theorem c8_witness :
    buildStr (.mk (.source "w.ts") false [] none none) = .ok "\n" ∧
    jsLastChar "\n" = some '\n' :=
  ⟨rfl, c8_amended_trailing_newline.1 "w.ts" false [] none "\n" rfl⟩

/-! ### Claim C6 -/

/-- Strings are equal when their character data are. -/
lemma str_data_inj {s t : String} (h : s.data = t.data) : s = t := by
  calc s = String.mk s.data := (strMk_data s).symm
    _ = String.mk t.data := by rw [h]
    _ = t := strMk_data t

/-- Joining the three comma parts of `[X, Trivia(" "), Y]`. -/
lemma join_three (sx sy : String) :
    String.join [sx ++ ",", " ", sy] = sx ++ ", " ++ sy := by
  apply str_data_inj
  show ((("" ++ (sx ++ ",")) ++ " ") ++ sy).data = ((sx ++ ", ") ++ sy).data
  simp only [data_append]
  simp

/-- Under pointwise rendering, `exprParts` produces each non-trivia
rendering with a comma appended and each trivia rendering unchanged. -/
lemma exprParts_of_rendersTo :
    ∀ (es : List CNode) (ss : List String), rendersTo es ss →
      exprParts es =
        .ok (List.zipWith (fun n s => if n.isTrivia then s else s ++ ",") es ss) := by
  intro es ss h
  induction h with
  | nil => rfl
  | cons hx hrest ih =>
    rw [exprParts_cons, hx, ih]
    rfl

/-- Shifting the running index of `lastNoSpaceIdxFrom`. -/
lemma lastNoSpaceIdxFrom_shift :
    ∀ (es : List CNode) (i : Nat),
      lastNoSpaceIdxFrom es i = (lastNoSpaceIdxFrom es 0).map (· + i) := by
  intro es
  induction es with
  | nil => intro i; rfl
  | cons v rest ih =>
    intro i
    simp only [lastNoSpaceIdxFrom]
    rw [ih (i + 1), ih 1]
    rcases lastNoSpaceIdxFrom rest 0 with _ | j
    · simp only [Option.map_none']
      by_cases hv : v.isTrivia <;> simp [hv]
    · simp only [Option.map_some']
      congr 1
      omega

/-- `lastNoSpaceIdx` is `none` exactly when every element is trivia. -/
lemma lastNoSpaceIdx_eq_none_iff :
    ∀ es : List CNode, lastNoSpaceIdx es = none ↔ es.all CNode.isTrivia = true := by
  intro es
  induction es with
  | nil => simp [lastNoSpaceIdx, lastNoSpaceIdxFrom]
  | cons v rest ih =>
    simp only [lastNoSpaceIdx, lastNoSpaceIdxFrom] at *
    rw [lastNoSpaceIdxFrom_shift rest 1]
    rcases hr : lastNoSpaceIdxFrom rest 0 with _ | j
    · rw [hr] at ih
      simp only [Option.map_none']
      by_cases hv : v.isTrivia <;> simp [hv, ← ih]
    · rw [hr] at ih
      simp only [Option.map_some']
      constructor
      · intro h; exact Option.noConfusion h
      · intro h
        simp only [List.all_cons, Bool.and_eq_true] at h
        have := ih.mpr h.2
        exact Option.noConfusion this

/-- `stripLastComma` at a successor index passes over the head. -/
lemma stripLastComma_succ (j : Nat) (p : String) (ps : List String) :
    stripLastComma (some (j + 1)) (p :: ps) = p :: stripLastComma (some j) ps := by
  simp only [stripLastComma, List.get?]
  rcases ps.get? j with _ | s <;> simp

/-- On an all-trivia list the comma rule changes nothing. -/
lemma commaSpecParts_of_allTrivia :
    ∀ (es : List CNode) (ss : List String), es.all CNode.isTrivia = true →
      commaSpecParts es ss =
        List.zipWith (fun n s => if n.isTrivia then s else s ++ ",") es ss := by
  intro es
  induction es with
  | nil => intro ss _; cases ss <;> rfl
  | cons v rest ih =>
    intro ss h
    simp only [List.all_cons, Bool.and_eq_true] at h
    cases ss with
    | nil => rfl
    | cons s tl =>
      simp only [commaSpecParts, List.zipWith, h.1, if_true, ih tl h.2]

/-- The source's strip-the-last-comma pass computes exactly the claim's
comma rule. -/
lemma stripLastComma_eq_commaSpecParts :
    ∀ (es : List CNode) (ss : List String),
      stripLastComma (lastNoSpaceIdx es)
          (List.zipWith (fun n s => if n.isTrivia then s else s ++ ",") es ss) =
        commaSpecParts es ss := by
  intro es
  induction es with
  | nil =>
    intro ss
    cases ss with
    | nil => rfl
    | cons s tl => rfl
  | cons v rest ih =>
    intro ss
    cases ss with
    | nil =>
      rcases lastNoSpaceIdx (v :: rest) with _ | i <;> rfl
    | cons s tl =>
      have hsplit : lastNoSpaceIdx (v :: rest) =
          match (lastNoSpaceIdx rest).map (· + 1) with
          | some j => some j
          | none => if v.isTrivia then none else some 0 := by
        simp only [lastNoSpaceIdx, lastNoSpaceIdxFrom]
        rw [lastNoSpaceIdxFrom_shift rest 1]
      rcases hr : lastNoSpaceIdx rest with _ | j
      · have hall : rest.all CNode.isTrivia = true :=
          (lastNoSpaceIdx_eq_none_iff rest).mp hr
        rw [hr] at hsplit
        simp only [Option.map_none'] at hsplit
        by_cases hv : v.isTrivia
        · rw [hsplit, if_pos hv]
          simp only [List.zipWith, stripLastComma, commaSpecParts, hv, if_true]
          rw [commaSpecParts_of_allTrivia rest tl hall]
        · rw [hsplit, if_neg hv]
          simp only [List.zipWith, commaSpecParts,
            Bool.not_eq_true] at *
          simp only [hv, Bool.false_eq_true, if_false, hall, if_true]
          simp only [stripLastComma, List.get?, List.set]
          rw [jsDropLastChar_append_comma,
            commaSpecParts_of_allTrivia rest tl hall]
      · rw [hr] at hsplit
        simp only [Option.map_some'] at hsplit
        have hnall : ¬rest.all CNode.isTrivia = true := by
          intro hall
          have := (lastNoSpaceIdx_eq_none_iff rest).mpr hall
          rw [hr] at this
          exact Option.noConfusion this
        rw [hsplit]
        simp only [List.zipWith]
        rw [stripLastComma_succ]
        by_cases hv : v.isTrivia
        · simp only [commaSpecParts, hv, if_true]
          rw [← hr, ih tl]
        · simp only [commaSpecParts, hv, Bool.false_eq_true, if_false,
            hnall, if_false]
          rw [← hr, ih tl]

/-- C6: an expression block whose elements are `[X, Trivia(" "), Y]`
with X and Y non-trivia renders as "X, Y"; in general a comma is
appended to every non-trivia element except the last non-trivia one,
trivia elements never receive commas, and no comma follows the final
semantic element. -/
theorem c6_expression_block_commas :
    (∀ (es : List CNode) (ss : List String) (a : Bool) (o : Option POrigin),
      rendersTo es ss →
      buildStr (.mk .abstractExpressionBlock a es o none) =
        .ok (String.join (commaSpecParts es ss))) ∧
    (∀ (X Y : CNode) (sx sy : String) (a : Bool) (o : Option POrigin),
      X.isTrivia = false → Y.isTrivia = false →
      toStr X = .ok sx → toStr Y = .ok sy →
      buildStr (.mk .abstractExpressionBlock a [X, mkTrivia " ", Y] o none) =
        .ok (sx ++ ", " ++ sy)) := by
  have hgen : ∀ (es : List CNode) (ss : List String) (a : Bool) (o : Option POrigin),
      rendersTo es ss →
      buildStr (.mk .abstractExpressionBlock a es o none) =
        .ok (String.join (commaSpecParts es ss)) := by
    intro es ss a o h
    simp only [buildStr, exprParts_of_rendersTo es ss h,
      stripLastComma_eq_commaSpecParts es ss]
  refine ⟨hgen, ?_⟩
  intro X Y sx sy a o hX hY hsx hsy
  have hT : toStr (mkTrivia " ") = .ok " " := rfl
  have hr : rendersTo [X, mkTrivia " ", Y] [sx, " ", sy] :=
    .cons hsx (.cons hT (.cons hsy .nil))
  rw [hgen [X, mkTrivia " ", Y] [sx, " ", sy] a o hr]
  have hTt : (mkTrivia " ").isTrivia = true := rfl
  simp only [commaSpecParts, hX, hY, hTt, Bool.false_eq_true, if_false,
    if_true, List.all_cons, List.all_nil, Bool.and_true, Bool.and_false,
    Bool.true_and, Bool.false_and]
  rw [join_three]

/-! ### Lemmas about analyzerAnalyze -/

/-- `toString()` of any node with set cached text returns it. -/
lemma toStr_of_text (n : CNode) (s : String) (h : n.text = some s) :
    toStr n = .ok s := by
  cases n with
  | mk k a es o t =>
    simp only [text_mk] at h
    subst h
    rfl

/-- The fields of `registerWithNode` followed by `setText`. -/
lemma registerSetText_fields (x : CNode) (o : POrigin) (s : String) :
    ((x.registerWithNode o).setText s).kind = x.kind ∧
    ((x.registerWithNode o).setText s).node = some o ∧
    ((x.registerWithNode o).setText s).text = some s ∧
    ((x.registerWithNode o).setText s).canAnalyzeBody = x.canAnalyzeBody ∧
    ((x.registerWithNode o).setText s).bodyHasBeenAnalyzed = x.bodyHasBeenAnalyzed ∧
    ((x.registerWithNode o).setText s).elements = x.elements := by
  cases x
  exact ⟨rfl, rfl, rfl, rfl, rfl, rfl⟩

/-- A successful `SourceAnalyzer.analyze()` returns a root of the same
class as the registered source, whose node is the source file, whose
cached text is the file's full text, and which can no longer analyze its
body. -/
lemma analyzerAnalyze_ok_fields (strict : Bool)
    (an : PNode → Except String CNode) (a : SourceAnalyzer) (out : CNode)
    (h : analyzerAnalyze strict an a = .ok out) :
    out.kind = a.source.kind ∧
    out.node = some (.file a.sourceFile) ∧
    out.text = some a.sourceFile.fullText ∧
    out.canAnalyzeBody = false := by
  unfold analyzerAnalyze at h
  obtain ⟨f1, f2, f3, f4, f5, f6⟩ :=
    registerSetText_fields a.source (.file a.sourceFile) a.sourceFile.fullText
  rcases performBlockAnalysis_ok _ _ _ _ _ _ h with ⟨rfl, hc⟩ | ⟨h1, h2, h3, h4, _⟩
  · exact ⟨f1, f2, f3, by rw [f4] at hc ⊢; exact (Bool.eq_false_iff.mpr
      (fun ht => by rw [ht] at hc; cases hc))⟩
  · refine ⟨h1.trans f1, h2.trans f2, h3.trans f3,
      canAnalyzeBody_false_of_analyzed _ h4⟩

/-- Re-running `analyze()` against an already analyzed source is the
identity. -/
lemma analyzerAnalyze_self (strict : Bool)
    (an : PNode → Except String CNode) (sf : PFile) (out : CNode) (r : Bool)
    (hn : out.node = some (.file sf)) (ht : out.text = some sf.fullText)
    (hc : out.canAnalyzeBody = false) :
    analyzerAnalyze strict an ⟨out, sf, r⟩ = .ok out := by
  unfold analyzerAnalyze
  simp only
  rw [registerSetText_self out (.file sf) sf.fullText hn ht]
  exact performBlockAnalysis_noop strict out sf.statements an false hc

/-- `sourceFileName` depends only on the node's class. -/
lemma sourceFileName_congr {n m : CNode} (h : n.kind = m.kind) :
    sourceFileName n = sourceFileName m := by
  unfold sourceFileName
  rw [h]

/-! ### Claim C1 -/

/-- C1: for every source file analyzed (with `recursive = true`) and
never mutated afterward, the root `Source` node's `toString()` equals the
original source text — exactly, hence in particular up to
trailing-newline normalization. -/
theorem c1_round_trip :
    ∀ (strict : Bool) (an : PNode → Except String CNode)
      (a : SourceAnalyzer) (out : CNode),
      a.recursive = true →
      analyzerAnalyze strict an a = .ok out →
      toStr out = .ok a.sourceFile.fullText ∧
      (∀ s, toStr out = .ok s →
        dropTrailingNewlines s = dropTrailingNewlines a.sourceFile.fullText) := by
  intro strict an a out _ h
  obtain ⟨_, _, ht, _⟩ := analyzerAnalyze_ok_fields strict an a out h
  have hts := toStr_of_text out a.sourceFile.fullText ht
  refine ⟨hts, ?_⟩
  intro s hs
  rw [hts] at hs
  cases hs
  rfl

/-- Witness for C1: a one-statement file whose analysis succeeds renders
its original full text back. -/
theorem c1_witness :
    analyzerAnalyze true (fun e => .ok (mkCodeNode.registerWithNode (.node e)))
        ⟨mkSource "a.ts", ⟨50, "a.ts", [⟨1, "  ", "var a = 1;", 2, none⟩],
          ⟨100, "\n", "", 1, none⟩⟩, true⟩ =
      .ok (.mk (.source "a.ts") true
        [.mk (.trivia "  ") false [] none none,
         .mk .codeNode false [] (some (.node ⟨1, "  ", "var a = 1;", 2, none⟩))
           (some "var a = 1"),
         .mk (.trivia "\n") false [] none none]
        (some (.file ⟨50, "a.ts", [⟨1, "  ", "var a = 1;", 2, none⟩],
          ⟨100, "\n", "", 1, none⟩⟩))
        (some "  var a = 1;\n")) ∧
    toStr (.mk (.source "a.ts") true
        [.mk (.trivia "  ") false [] none none,
         .mk .codeNode false [] (some (.node ⟨1, "  ", "var a = 1;", 2, none⟩))
           (some "var a = 1"),
         .mk (.trivia "\n") false [] none none]
        (some (.file ⟨50, "a.ts", [⟨1, "  ", "var a = 1;", 2, none⟩],
          ⟨100, "\n", "", 1, none⟩⟩))
        (some "  var a = 1;\n")) = .ok "  var a = 1;\n" :=
  ⟨rfl,
   (c1_round_trip true (fun e => .ok (mkCodeNode.registerWithNode (.node e)))
      ⟨mkSource "a.ts", ⟨50, "a.ts", [⟨1, "  ", "var a = 1;", 2, none⟩],
        ⟨100, "\n", "", 1, none⟩⟩, true⟩ _ rfl rfl).1⟩

/-! ### Claim C2 -/

/-- C2: a second `analyze(path)` after a first successful one returns the
identical host and tree (hence identical element counts and rendered
text, and no element list grows); block analysis is a no-op whenever
`canAnalyzeBody()` is false; and `canAnalyzeBody()` is true iff the
body-analyzed flag is false and the element list is empty. -/
theorem c2_analyze_idempotent :
    (∀ (strict r : Bool) (an : PNode → Except String CNode) (h h' : Host)
       (p : String) (out : CNode),
      hostAnalyze strict an h p r = .ok (h', out) →
      hostAnalyze strict an h' p r = .ok (h', out)) ∧
    (∀ (strict : Bool) (b : CNode) (es : List PNode)
       (an : PNode → Except String CNode) (ig : Bool),
      b.canAnalyzeBody = false →
      performBlockAnalysis strict b es an ig = .ok b) ∧
    (∀ b : CNode, b.canAnalyzeBody = true ↔
      (b.bodyHasBeenAnalyzed = false ∧ b.elements = [])) := by
  refine ⟨?_, performBlockAnalysis_noop, ?_⟩
  · intro strict r an h h' p out hfirst
    unfold hostAnalyze at hfirst
    rcases hga : getAnalyzer h (some (.inl p)) r with e | ⟨h1, a⟩
    · simp only [hga] at hfirst
      exact Except.noConfusion hfirst
    · simp only [hga] at hfirst
      rcases haa : analyzerAnalyze strict an a with ⟨e, ps⟩ | out0
      · simp only [haa] at hfirst
        exact Except.noConfusion hfirst
      · simp only [haa, Except.ok.injEq, Prod.mk.injEq] at hfirst
        obtain ⟨hh', hout⟩ := hfirst
        subst hout
        subst hh'
        -- unpack the first getAnalyzer run
        unfold getAnalyzer at hga
        simp only at hga
        rcases hsf : getSourceFile (getSource h p).1.program
            (sourceFileName (getSource h p).2) with _ | sf
        · rw [hsf] at hga; exact Except.noConfusion hga
        · rw [hsf] at hga
          simp only [Except.ok.injEq, Prod.mk.injEq] at hga
          obtain ⟨hh1, ha⟩ := hga
          obtain ⟨k1, k2, k3, k4⟩ := analyzerAnalyze_ok_fields strict an a out0 haa
          subst ha
          -- the second run
          unfold hostAnalyze getAnalyzer getSource
          dsimp only
          rw [lookup_updateAssoc]
          dsimp only
          have hfn : sourceFileName out0 =
              sourceFileName (getSource h p).2 := sourceFileName_congr k1
          rw [hh1] at hsf
          rw [hfn, hsf]
          dsimp only
          rw [analyzerAnalyze_self strict an sf out0 r k2 k3 k4]
          dsimp only
          rw [updateAssoc_idem]
  · intro b
    cases b with
    | mk k a es o t =>
      simp [CNode.canAnalyzeBody, List.isEmpty_iff]

/-- Witness for C2: a concrete one-file host analyzed twice returns the
identical registry and tree both times. -/
theorem c2_witness :
    hostAnalyze false (fun e => .ok (mkCodeNode.registerWithNode (.node e)))
        ⟨[⟨50, "a.ts", [⟨1, "", "var a = 1;", 2, none⟩], ⟨100, "", "", 1, none⟩⟩], []⟩
        "a.ts" false =
      .ok (⟨[⟨50, "a.ts", [⟨1, "", "var a = 1;", 2, none⟩], ⟨100, "", "", 1, none⟩⟩],
        [("a.ts", .mk (.source "a.ts") true
          [.mk .codeNode false [] (some (.node ⟨1, "", "var a = 1;", 2, none⟩))
            (some "var a = 1")]
          (some (.file ⟨50, "a.ts", [⟨1, "", "var a = 1;", 2, none⟩],
            ⟨100, "", "", 1, none⟩⟩))
          (some "var a = 1;"))]⟩,
        .mk (.source "a.ts") true
          [.mk .codeNode false [] (some (.node ⟨1, "", "var a = 1;", 2, none⟩))
            (some "var a = 1")]
          (some (.file ⟨50, "a.ts", [⟨1, "", "var a = 1;", 2, none⟩],
            ⟨100, "", "", 1, none⟩⟩))
          (some "var a = 1;")) ∧
    hostAnalyze false (fun e => .ok (mkCodeNode.registerWithNode (.node e)))
        ⟨[⟨50, "a.ts", [⟨1, "", "var a = 1;", 2, none⟩], ⟨100, "", "", 1, none⟩⟩],
        [("a.ts", .mk (.source "a.ts") true
          [.mk .codeNode false [] (some (.node ⟨1, "", "var a = 1;", 2, none⟩))
            (some "var a = 1")]
          (some (.file ⟨50, "a.ts", [⟨1, "", "var a = 1;", 2, none⟩],
            ⟨100, "", "", 1, none⟩⟩))
          (some "var a = 1;"))]⟩
        "a.ts" false =
      .ok (⟨[⟨50, "a.ts", [⟨1, "", "var a = 1;", 2, none⟩], ⟨100, "", "", 1, none⟩⟩],
        [("a.ts", .mk (.source "a.ts") true
          [.mk .codeNode false [] (some (.node ⟨1, "", "var a = 1;", 2, none⟩))
            (some "var a = 1")]
          (some (.file ⟨50, "a.ts", [⟨1, "", "var a = 1;", 2, none⟩],
            ⟨100, "", "", 1, none⟩⟩))
          (some "var a = 1;"))]⟩,
        .mk (.source "a.ts") true
          [.mk .codeNode false [] (some (.node ⟨1, "", "var a = 1;", 2, none⟩))
            (some "var a = 1")]
          (some (.file ⟨50, "a.ts", [⟨1, "", "var a = 1;", 2, none⟩],
            ⟨100, "", "", 1, none⟩⟩))
          (some "var a = 1;")) :=
  ⟨rfl, c2_analyze_idempotent.1 false false
    (fun e => .ok (mkCodeNode.registerWithNode (.node e)))
    ⟨[⟨50, "a.ts", [⟨1, "", "var a = 1;", 2, none⟩], ⟨100, "", "", 1, none⟩⟩], []⟩
    _ "a.ts" _ rfl⟩

/-! ### Claim C3 -/

/-- C3: in strict mode, analyzing a block containing one element whose
analysis fails (as an unrecognized syntax kind does) makes the enclosing
analyze call throw, and afterwards the block's `bodyHasBeenAnalyzed` flag
is still false and its elements list still empty. -/
theorem c3_strict_failure_leaves_pristine :
    ∀ (an : PNode → Except String CNode) (e : PNode) (msg : String)
      (block : CNode),
      block.canAnalyzeBody = true → an e = .error msg →
      performBlockAnalysis true block [e] an = .error (msg, block) ∧
      block.bodyHasBeenAnalyzed = false ∧ block.elements = [] ∧
      (∀ a : SourceAnalyzer, a.source = block → a.sourceFile.statements = [e] →
        analyzerAnalyze true an a =
          .error (msg, (block.registerWithNode (.file a.sourceFile)).setText
            a.sourceFile.fullText) ∧
        ((block.registerWithNode (.file a.sourceFile)).setText
          a.sourceFile.fullText).bodyHasBeenAnalyzed = false ∧
        ((block.registerWithNode (.file a.sourceFile)).setText
          a.sourceFile.fullText).elements = []) := by
  intro an e msg block hc he
  have hflag : block.bodyHasBeenAnalyzed = false ∧ block.elements = [] := by
    cases block with
    | mk k a es o t =>
      simpa [CNode.canAnalyzeBody, List.isEmpty_iff] using hc
  have hloop : ∀ b : CNode, b.canAnalyzeBody = true →
      performBlockAnalysis true b [e] an = .error (msg, b) := by
    intro b hb
    unfold performBlockAnalysis
    rw [hb]
    simp [performBlockAnalysisLoop, he]
  refine ⟨hloop block hc, hflag.1, hflag.2, ?_⟩
  intro a hsrc hstmts
  obtain ⟨f1, f2, f3, f4, f5, f6⟩ :=
    registerSetText_fields block (.file a.sourceFile) a.sourceFile.fullText
  have hc' : ((block.registerWithNode (.file a.sourceFile)).setText
      a.sourceFile.fullText).canAnalyzeBody = true := by rw [f4]; exact hc
  refine ⟨?_, by rw [f5]; exact hflag.1, by rw [f6]; exact hflag.2⟩
  unfold analyzerAnalyze
  rw [hsrc, hstmts]
  exact hloop _ hc'

/-- Witness for C3: a concrete pristine code block with one failing
element: strict analysis errors and the block stays pristine. -/
theorem c3_witness :
    performBlockAnalysis true (.mk .codeBlock false [] none none)
        [⟨9, "", "@!bad", 999, none⟩]
        (fun n => failAnalysis n "statement") =
      .error ("Could not analyze statement: found @!bad, kind was 999",
        .mk .codeBlock false [] none none) ∧
    (CNode.mk .codeBlock false [] none none).bodyHasBeenAnalyzed = false ∧
    (CNode.mk .codeBlock false [] none none).elements = [] :=
  ⟨(c3_strict_failure_leaves_pristine
      (fun n => failAnalysis n "statement") ⟨9, "", "@!bad", 999, none⟩
      "Could not analyze statement: found @!bad, kind was 999"
      (.mk .codeBlock false [] none none) rfl rfl).1,
   (c3_strict_failure_leaves_pristine
      (fun n => failAnalysis n "statement") ⟨9, "", "@!bad", 999, none⟩
      "Could not analyze statement: found @!bad, kind was 999"
      (.mk .codeBlock false [] none none) rfl rfl).2.1,
   (c3_strict_failure_leaves_pristine
      (fun n => failAnalysis n "statement") ⟨9, "", "@!bad", 999, none⟩
      "Could not analyze statement: found @!bad, kind was 999"
      (.mk .codeBlock false [] none none) rfl rfl).2.2.1⟩

/-! ### Claim C4 -/

/-- C4 counterexample: in lenient mode a `MalformedReference` error —
raised through `failAnalysis`, exactly as the translation rules do —
does not make the enclosing block analysis throw: the error is caught and
a base-class fallback node is substituted, refuting "fatal in both
modes". -/
theorem c4_counterexample :
    (fun n => failAnalysis n "heritage clause") (⟨7, "", "class A extends B", 5, none⟩ : PNode) =
      .error "Could not analyze heritage clause: found class A extends B, kind was 5" ∧
    performBlockAnalysis false (.mk .codeBlock false [] none none)
        [⟨7, "", "class A extends B", 5, none⟩]
        (fun n => failAnalysis n "heritage clause") =
      .ok (.mk .codeBlock true
        [.mk .codeNode false [] (some (.node ⟨7, "", "class A extends B", 5, none⟩))
          (some "class A extends B")]
        none none) ∧
    (CNode.mk .codeNode false []
      (some (.node ⟨7, "", "class A extends B", 5, none⟩))
      (some "class A extends B")).kind = .codeNode :=
  ⟨rfl, rfl, rfl⟩

/-- C4 amended: `NullSource` errors are fatal in all modes —
`getAnalyzer` throws on a null source before any mode check — while
`performBlockAnalysis` catches every element-analyzer error without
distinguishing its kind: in lenient mode no element failure (not even a
`MalformedReference` from `failAnalysis`) aborts the call, and in strict
mode any element failure does. -/
theorem c4_amended_error_policy :
    (∀ (b : CNode) (es : List PNode) (an : PNode → Except String CNode)
       (ig : Bool), ∃ out, performBlockAnalysis false b es an ig = .ok out) ∧
    (∀ (b : CNode) (es : List PNode) (an : PNode → Except String CNode)
       (ig : Bool) (e : PNode) (msg : String),
      b.canAnalyzeBody = true → e ∈ es → an e = .error msg →
      ∃ err, performBlockAnalysis true b es an ig = .error err) ∧
    (∀ (h : Host) (r : Bool),
      getAnalyzer h none r = .error "Null source passed to getAnalyzer!") := by
  have hloop : ∀ (an : PNode → Except String CNode) (es : List PNode) (b : CNode),
      ∃ out, performBlockAnalysisLoop false an es b = .ok out := by
    intro an es
    induction es with
    | nil => exact fun b => ⟨b, rfl⟩
    | cons e rest ih =>
      intro b
      rcases he : an e with msg | codeNode
      · obtain ⟨out, hout⟩ := ih
          (addToBlock ((mkCodeNode.registerWithNode (.node e)).setText e.text) b e)
        exact ⟨out, by simp only [performBlockAnalysisLoop, he,
          Bool.false_eq_true, if_false, hout]⟩
      · obtain ⟨out, hout⟩ := ih (addToBlock codeNode b e)
        exact ⟨out, by simp only [performBlockAnalysisLoop, he, hout]⟩
  have hstrict : ∀ (an : PNode → Except String CNode) (es : List PNode)
      (b : CNode) (e : PNode) (msg : String), e ∈ es → an e = .error msg →
      ∃ err, performBlockAnalysisLoop true an es b = .error err := by
    intro an es
    induction es with
    | nil => intro b e msg hmem; exact absurd hmem (List.not_mem_nil e)
    | cons x rest ih =>
      intro b e msg hmem he
      rcases hx : an x with m | codeNode
      · exact ⟨(m, b), by simp [performBlockAnalysisLoop, hx]⟩
      · rcases List.mem_cons.mp hmem with rfl | hmem'
        · rw [hx] at he; exact Except.noConfusion he
        · obtain ⟨err, herr⟩ := ih (addToBlock codeNode b x) e msg hmem' he
          exact ⟨err, by simp only [performBlockAnalysisLoop, hx, herr]⟩
  refine ⟨?_, ?_, fun _ _ => rfl⟩
  · intro b es an ig
    by_cases hc : b.canAnalyzeBody
    · obtain ⟨out, hout⟩ := hloop an es b
      unfold performBlockAnalysis
      rw [hc]
      simp only [Bool.not_true, Bool.false_eq_true, if_false, hout]
      exact ⟨_, rfl⟩
    · exact ⟨b, performBlockAnalysis_noop false b es an ig (by simpa using hc)⟩
  · intro b es an ig e msg hc hmem he
    obtain ⟨err, herr⟩ := hstrict an es b e msg hmem he
    unfold performBlockAnalysis
    rw [hc]
    simp only [Bool.not_true, Bool.false_eq_true, if_false, herr]
    exact ⟨err, rfl⟩

/-- Witness for C4's amended claim: the concrete lenient run of the
counterexample block succeeds, the same run in strict mode errors, and a
null source always errors. -/
theorem c4_witness :
    (∃ out, performBlockAnalysis false (.mk .codeBlock false [] none none)
        [⟨7, "", "class A extends B", 5, none⟩]
        (fun n => failAnalysis n "heritage clause") false = .ok out) ∧
    (∃ err, performBlockAnalysis true (.mk .codeBlock false [] none none)
        [⟨7, "", "class A extends B", 5, none⟩]
        (fun n => failAnalysis n "heritage clause") false = .error err) ∧
    getAnalyzer ⟨[], []⟩ none false =
      .error "Null source passed to getAnalyzer!" :=
  ⟨c4_amended_error_policy.1 (.mk .codeBlock false [] none none)
      [⟨7, "", "class A extends B", 5, none⟩]
      (fun n => failAnalysis n "heritage clause") false,
   c4_amended_error_policy.2.1 (.mk .codeBlock false [] none none)
      [⟨7, "", "class A extends B", 5, none⟩]
      (fun n => failAnalysis n "heritage clause") false
      ⟨7, "", "class A extends B", 5, none⟩
      "Could not analyze heritage clause: found class A extends B, kind was 5"
      rfl (List.mem_singleton.mpr rfl) rfl,
   c4_amended_error_policy.2.2 ⟨[], []⟩ false⟩

/-! ### Claim C9 -/

/-- C9 counterexample: `addToBlock` sets the appended node's cached text
to the element's `getText()` with the trailing semicolon stripped, not to
the literal slice itself. -/
theorem c9_counterexample :
    (addToBlock mkCodeNode (.mk .codeBlock false [] none none)
        ⟨3, "", "var a = 1;", 2, none⟩).elements =
      [.mk .codeNode false [] none (some "var a = 1")] ∧
    (CNode.mk .codeNode false [] none (some "var a = 1")).text ≠
      some (PNode.text ⟨3, "", "var a = 1;", 2, none⟩) := by
  refine ⟨rfl, ?_⟩
  intro h
  simp only [text_mk, PNode.text, Option.some.injEq] at h
  exact absurd (congrArg String.data h) (by decide)

/-- C9 amended: for every parse element appended to a block, the
element's leading trivia is emitted first as a `Trivia` element, the
appended node's cached text is the element's literal slice with a single
trailing semicolon stripped when present (recoverable by re-appending
";", which rendering re-adds via `statementLevelTerminal`), the
statement's origin link is untouched by the overwrite, and the
lenient-path fallback node's origin link is set to the element. -/
theorem c9_amended_cached_slice :
    (∀ (stmt block : CNode) (e : PNode),
      (addToBlock stmt block e).elements =
        block.elements ++
          (if e.leading.length > 0 then [mkTrivia e.leading] else []) ++
          [stmt.setText (stripTrailingSemicolon e.text)]) ∧
    (∀ (stmt : CNode) (e : PNode),
      (stmt.setText (stripTrailingSemicolon e.text)).text =
        some (stripTrailingSemicolon e.text) ∧
      (stmt.setText (stripTrailingSemicolon e.text)).node = stmt.node) ∧
    (∀ e : PNode, e.text = stripTrailingSemicolon e.text ∨
      e.text = stripTrailingSemicolon e.text ++ ";") ∧
    (∀ e : PNode,
      ((mkCodeNode.registerWithNode (.node e)).setText e.text).node =
        some (.node e)) := by
  refine ⟨addToBlock_elements, ?_, ?_, fun _ => rfl⟩
  · intro stmt e
    cases stmt
    exact ⟨rfl, rfl⟩
  · intro e
    unfold stripTrailingSemicolon
    by_cases h : jsLastChar e.text = some ';'
    · right
      rw [if_pos h]
      have := eq_dropLast_append_of_jsLastChar e.text ';' h
      simpa using this
    · left
      rw [if_neg h]

/-- Witness for C9's amended claim: a concrete semicolon-terminated
element has its cached slice recoverable by re-appending ";". -/
theorem c9_witness :
    (addToBlock mkCodeNode (.mk .codeBlock false [] none none)
        ⟨3, "", "var a = 1;", 2, none⟩).elements =
      [] ++ (if ("" : String).length > 0 then [mkTrivia ""] else []) ++
        [mkCodeNode.setText (stripTrailingSemicolon "var a = 1;")] ∧
    (("var a = 1;" : String) = stripTrailingSemicolon "var a = 1;" ∨
      ("var a = 1;" : String) = stripTrailingSemicolon "var a = 1;" ++ ";") :=
  ⟨c9_amended_cached_slice.1 mkCodeNode (.mk .codeBlock false [] none none)
      ⟨3, "", "var a = 1;", 2, none⟩,
   c9_amended_cached_slice.2.2.1 ⟨3, "", "var a = 1;", 2, none⟩⟩

/-- Witness for C6: concrete non-trivia elements rendering "1" and "2"
around a single-space trivia render as "1, 2". -/
theorem c6_witness :
    buildStr (.mk .abstractExpressionBlock false
      [.mk .codeNode false [] none (some "1"), mkTrivia " ",
       .mk .codeNode false [] none (some "2")] none none) = .ok "1, 2" :=
  c6_expression_block_commas.2
    (.mk .codeNode false [] none (some "1"))
    (.mk .codeNode false [] none (some "2"))
    "1" "2" false none rfl rfl rfl rfl

end Tscripter
